import Mathlib

/-!
Verification of the ILP mono-repo core against its design specification.

This file gives a shallow embedding, in Lean 4, of the code that the
specification's claims are about:

* `LightningAccount` (balance and settlement state machine of the
  Lightning plugin): `addBalance`, `subBalance`, `attemptSettle`,
  `_handlePrepare`, `handlePrepareResponse`, `_handleIncomingInvoice`,
  `_handleInvoiceRequest`, and the balance-configuration validation in
  the `LightningPlugin` constructor.
* The v1 `ilp-packet` codec (`serializeIlpForwardedPayment` /
  `deserializeIlpForwardedPayment` and the OER writer it is built on).
* The `RouteBroadcaster` per-peer epoch cursor logic.
* The `StoreWrapper` cache/write-queue.

Amounts are integers (the source uses arbitrary-precision `BigNumber`
values that are integral at every site the claims touch), so they are
embedded as `Int`.  Fallible code is embedded with `Except`.  Stateful
methods are embedded as explicit state-passing functions; the outcome of
an external call (the Lightning daemon, a BTP round-trip, the data
handler) is an explicit parameter of the function that awaits it.
-/

/-- Decidable equality for `Except`, used to evaluate the embedded
fallible operations on concrete inputs. -/
instance exceptDecEq {ε α : Type} [DecidableEq ε] [DecidableEq α] :
    DecidableEq (Except ε α) := fun x y =>
  match x, y with
  | .ok a, .ok b =>
    if h : a = b then isTrue (by rw [h])
    else isFalse (by intro hc; cases hc; exact h rfl)
  | .error a, .error b =>
    if h : a = b then isTrue (by rw [h])
    else isFalse (by intro hc; cases hc; exact h rfl)
  | .ok _, .error _ => isFalse (by intro hc; cases hc)
  | .error _, .ok _ => isFalse (by intro hc; cases hc)

namespace Lightning

/-- Balance configuration of a `LightningPlugin`
(`master._balance` in the source): `minimum`, `maximum`, `settleTo` and
the optional `settleThreshold`. -/
structure BalanceCfg where
  minimum : Int
  maximum : Int
  settleTo : Int
  settleThreshold : Option Int
  deriving Repr, DecidableEq

/-- Mutable per-account state of a `LightningAccount` (`this.account` in
the source): the running `balance`, the cumulative `payoutAmount`, and
the set of issued invoice payment requests (`invoices`, a JS `Set`
embedded as a duplicate-free list). -/
structure AccountState where
  balance : Int
  payoutAmount : Int
  invoices : List String
  deriving Repr, DecidableEq

/-- Embedding of `LightningAccount.addBalance` (part_000 lines 462-481):
zero amounts return immediately, negative amounts throw, and the
increment is applied only when the proposed balance does not exceed
`maximum`; otherwise the method throws and the state is untouched. -/
def addBalance (cfg : BalanceCfg) (s : AccountState) (amount : Int) :
    Except String AccountState :=
  if amount = 0 then .ok s
  else if amount < 0 then .error "cannot add negative amount to balance"
  else if cfg.maximum < s.balance + amount then
    .error "proposed balance exceeds maximum"
  else .ok { s with balance := s.balance + amount }

/-- Embedding of `LightningAccount.subBalance` (part_000 lines 483-503):
zero amounts return immediately, negative amounts throw, and the
decrement is applied only when the proposed balance is not below
`minimum`; otherwise the method throws and the state is untouched. -/
def subBalance (cfg : BalanceCfg) (s : AccountState) (amount : Int) :
    Except String AccountState :=
  if amount = 0 then .ok s
  else if amount < 0 then .error "cannot subtract negative amount from balance"
  else if s.balance - amount < cfg.minimum then
    .error "proposed balance is below the minimum"
  else .ok { s with balance := s.balance - amount }

/-- Outcome of the awaited external part of a settlement attempt: the
`requestInvoice` BTP round-trip followed by `lnd.payInvoice`.  A failure
of either lands in the same `catch` block of the source, so one flag
suffices. -/
inductive SettleOutcome
  | paymentSucceeds
  | paymentFails
  deriving Repr, DecidableEq

/-- Synchronous front of `LightningAccount.attemptSettle` (part_000
lines 176-221): everything the method executes before its first `await`
(which is `await this.requestInvoice()`).  Returns `none` when the
method returns without initiating a payment (no threshold, balance not
below the threshold, or a non-positive budget), and `some (s1, budget)`
when it has optimistically executed `addBalance(budget)` and is about to
request an invoice and pay it; the `addBalance` call is outside the
`try`, so its exception escapes. -/
def attemptSettleStart (cfg : BalanceCfg) (s : AccountState) :
    Except String (Option (AccountState × Int)) :=
  match cfg.settleThreshold with
  | none => .ok none
  | some settleThreshold =>
    if ¬ s.balance < settleThreshold then .ok none
    else if cfg.settleTo - s.balance ≤ 0 then .ok none
    else if min (cfg.settleTo - s.balance) s.payoutAmount ≤ 0 then .ok none
    else
      (addBalance cfg s (min (cfg.settleTo - s.balance) s.payoutAmount)).map
        (fun s1 => (s1, min (cfg.settleTo - s.balance) s.payoutAmount))

/-- Tail of `LightningAccount.attemptSettle` (part_000 lines 222-253),
run after the payment attempt resolves: on success the `payoutAmount`
counter is increased by the budget; on any failure inside the `try`
block the optimistic `addBalance` is reverted with
`subBalance(budget)`. -/
def attemptSettleFinish (cfg : BalanceCfg) (s1 : AccountState)
    (budget : Int) (o : SettleOutcome) : Except String AccountState :=
  match o with
  | .paymentSucceeds => .ok { s1 with payoutAmount := s1.payoutAmount + budget }
  | .paymentFails => subBalance cfg s1 budget

/-- Whole of `LightningAccount.attemptSettle` (part_000 lines 176-254)
under a given external outcome `o`, as the composition of its
synchronous front and its post-await tail. -/
def attemptSettle (cfg : BalanceCfg) (s : AccountState) (o : SettleOutcome) :
    Except String AccountState :=
  match attemptSettleStart cfg s with
  | .error e => .error e
  | .ok none => .ok s
  | .ok (some (s1, budget)) => attemptSettleFinish cfg s1 budget o

/-- Raw balance options passed to the `LightningPlugin` constructor
(numeric `BigNumber.Value` fields, here integral), after the parameter
defaults of index.ts lines 76-82 have been applied. -/
structure BalanceOpts where
  minimum : Int
  maximum : Int
  settleTo : Int
  settleThreshold : Option Int
  deriving Repr, DecidableEq

/-- JS truthiness applied to the raw numeric `settleThreshold` option:
index.ts line 118 stores `settleThreshold ? new BigNumber(...) : undefined`,
so a supplied threshold of `0` (falsy as a JS number) is stored as
`undefined`. -/
def effectiveThreshold : Option Int → Option Int
  | some v => if v = 0 then none else some v
  | none => none

/-- Embedding of the balance-configuration validation in the
`LightningPlugin` constructor (index.ts lines 114-148).  When the stored
`settleThreshold` is defined (truthy) the constructor requires
`maximum ≥ settleTo`, `settleTo ≥ settleThreshold` and
`settleThreshold ≥ minimum` in that order; otherwise it requires
`maximum > minimum`.  The `.dp(0, ROUND_FLOOR)` calls are the identity
on the integral inputs embedded here. -/
def buildBalance (opts : BalanceOpts) : Except String BalanceCfg :=
  match effectiveThreshold opts.settleThreshold with
  | some v =>
    if ¬ opts.maximum ≥ opts.settleTo then
      .error "maximum balance must be greater than or equal to settleTo"
    else if ¬ opts.settleTo ≥ v then
      .error "settleTo must be greater than or equal to settleThreshold"
    else if ¬ v ≥ opts.minimum then
      .error "settleThreshold must be greater than or equal to minimum balance"
    else .ok ⟨opts.minimum, opts.maximum, opts.settleTo, some v⟩
  | none =>
    if ¬ opts.maximum > opts.minimum then
      .error "maximum balance must be greater than minimum balance"
    else .ok ⟨opts.minimum, opts.maximum, opts.settleTo, none⟩

/-- First byte of the response the registered data handler returns for
a forwarded PREPARE: either `TYPE_ILP_FULFILL` or anything else
(REJECT, or a locally generated timeout REJECT). -/
inductive DownstreamResp
  | fulfill
  | nonFulfill
  deriving Repr, DecidableEq

/-- Errors thrown inside `_handlePrepare` and converted to REJECT
packets by `IlpPacket.errorToReject`. -/
inductive PrepareError
  | noHandler
  | amountTooLarge (received maximum : Int)
  | insufficientLiquidity
  | internalErr
  deriving Repr, DecidableEq

/-- Shape of the REJECT packet produced for a failed PREPARE: its
three-character ILP error code and, for F08, the amounts encoded in its
data section. -/
structure RejectPacket where
  code : String
  encodedAmounts : Option (Int × Int)
  deriving Repr, DecidableEq

/-- Modelled from the spec: `IlpPacket.errorToReject` and the error
classes of ilp-packet v3 (a dependency of the Lightning plugin that is
not in this repository snapshot).  Per the specification's error
taxonomy, `AmountTooLargeError` maps to code F08 with data encoding the
received and maximum amounts, `InsufficientLiquidityError` maps to T04,
and plain errors map to the internal-error code F00. -/
def errorToReject : PrepareError → RejectPacket
  | .noHandler => ⟨"F00", none⟩
  | .amountTooLarge received maximum => ⟨"F08", some (received, maximum)⟩
  | .insufficientLiquidity => ⟨"T04", none⟩
  | .internalErr => ⟨"F00", none⟩

/-- Reply of `_handlePrepare`: either the data-handler response relayed
back (FULFILL or not), or a locally produced REJECT. -/
inductive PrepareReply
  | ilpResponse (resp : DownstreamResp)
  | reject (r : RejectPacket)
  deriving Repr, DecidableEq

/-- Result of `_handlePrepare`: the post-call account state, whether the
PREPARE was forwarded to the registered data handler, and the reply
serialized back over BTP. -/
structure PrepareResult where
  state : AccountState
  forwarded : Bool
  reply : PrepareReply
  deriving Repr, DecidableEq

/-- Embedding of `LightningAccount._handlePrepare` (part_000 lines
355-396) for an incoming PREPARE of the given `amount`.  Checks the
data-handler registration, then the max-packet bound
(`amount.gt(maxPacketAmount)` rejects with F08), then optimistically
runs `addBalance(amount)` (failure rejects with T04); the packet is then
forwarded and, unless the downstream response is a FULFILL, the
optimistic debit is reverted with `subBalance(amount)`.  Every thrown
error is caught and converted to a REJECT with the balance of the throw
point kept. -/
def handlePrepare (cfg : BalanceCfg) (maxPacketAmount : Int)
    (s : AccountState) (amount : Int) (handlerRegistered : Bool)
    (downstream : DownstreamResp) : PrepareResult :=
  if ¬ handlerRegistered then
    ⟨s, false, .reject (errorToReject .noHandler)⟩
  else if maxPacketAmount < amount then
    ⟨s, false, .reject (errorToReject (.amountTooLarge amount maxPacketAmount))⟩
  else
    match addBalance cfg s amount with
    | .error _ => ⟨s, false, .reject (errorToReject .insufficientLiquidity)⟩
    | .ok s1 =>
      match downstream with
      | .fulfill => ⟨s1, true, .ilpResponse .fulfill⟩
      | .nonFulfill =>
        match subBalance cfg s1 amount with
        | .ok s2 => ⟨s2, true, .ilpResponse .nonFulfill⟩
        | .error _ => ⟨s1, true, .reject (errorToReject .internalErr)⟩

/-- Response packet received for a PREPARE this plugin forwarded
downstream, as inspected by `handlePrepareResponse`. -/
inductive RespPacket
  | fulfillPacket
  | rejectPacket (code : String)
  | otherPacket
  deriving Repr, DecidableEq

/-- Embedding of `LightningAccount.handlePrepareResponse` (part_000
lines 288-316) for a forwarded PREPARE of the given `amount`.  On a
FULFILL it runs `subBalance(amount)` and adds the amount to
`payoutAmount` (a `subBalance` failure is rethrown as an
`InternalError`).  The returned flag is `shouldSettle`: the method then
fire-and-forgets `attemptSettle()` exactly when the response is a
FULFILL or a REJECT with code T04. -/
def handlePrepareResponse (cfg : BalanceCfg) (s : AccountState)
    (amount : Int) (resp : RespPacket) :
    Except String (AccountState × Bool) :=
  match resp with
  | .fulfillPacket =>
    match subBalance cfg s amount with
    | .error e => .error e
    | .ok s1 =>
      .ok ({ s1 with payoutAmount := s1.payoutAmount + amount }, true)
  | .rejectPacket code => .ok (s, code = "T04")
  | .otherPacket => .ok (s, false)

/-- Invoice object delivered by the Lightning daemon's invoice
subscription. -/
structure LnInvoice where
  paymentRequest : String
  settled : Bool
  amtPaidSat : Int
  deriving Repr, DecidableEq

/-- Embedding of `LightningAccount._handleIncomingInvoice` (part_000
lines 163-174).  When the invoice is settled and its payment request is
one this account issued (`this.account.invoices.has(...)`), the method
runs `subBalance(amt_paid_sat)` and then invokes the money handler with
the amount (throwing after the balance update if none is registered).
The invoice is never removed from `invoices`.  The returned `Option Int`
is the amount passed to the money handler, `none` when it was not
invoked. -/
def handleIncomingInvoice (cfg : BalanceCfg) (s : AccountState)
    (inv : LnInvoice) (handlerRegistered : Bool) :
    Except String (AccountState × Option Int) :=
  if inv.settled ∧ s.invoices.contains inv.paymentRequest then
    match subBalance cfg s inv.amtPaidSat with
    | .error e => .error e
    | .ok s1 =>
      if handlerRegistered then .ok (s1, some inv.amtPaidSat)
      else .error "no money handler registered"
  else .ok (s, none)

/-- Embedding of `LightningAccount._handleInvoiceRequest` (part_000
lines 446-460): a fresh invoice obtained from `lnd.addInvoice()` has its
payment request added to the account's `invoices` set. -/
def handleInvoiceRequest (s : AccountState) (paymentRequest : String) :
    AccountState :=
  if s.invoices.contains paymentRequest then s
  else { s with invoices := s.invoices ++ [paymentRequest] }

theorem addBalance_ok_of_le {cfg : BalanceCfg} {s : AccountState} {d : Int}
    (hd : 0 ≤ d) (h : s.balance + d ≤ cfg.maximum) :
    addBalance cfg s d = .ok { s with balance := s.balance + d } := by
  unfold addBalance
  rcases eq_or_lt_of_le hd with hz | hpos
  · simp [← hz]
  · simp only [if_neg (by omega : ¬ d = 0), if_neg (by omega : ¬ d < 0)]
    rw [if_neg (by omega : ¬ cfg.maximum < s.balance + d)]

theorem addBalance_error_of_gt {cfg : BalanceCfg} {s : AccountState} {d : Int}
    (hd : 0 ≤ d) (hinv : s.balance ≤ cfg.maximum)
    (h : cfg.maximum < s.balance + d) :
    addBalance cfg s d = .error "proposed balance exceeds maximum" := by
  unfold addBalance
  simp only [if_neg (by omega : ¬ d = 0), if_neg (by omega : ¬ d < 0), if_pos h]

theorem subBalance_ok_of_ge {cfg : BalanceCfg} {s : AccountState} {d : Int}
    (hd : 0 ≤ d) (h : cfg.minimum ≤ s.balance - d) :
    subBalance cfg s d = .ok { s with balance := s.balance - d } := by
  unfold subBalance
  rcases eq_or_lt_of_le hd with hz | hpos
  · simp [← hz]
  · simp only [if_neg (by omega : ¬ d = 0), if_neg (by omega : ¬ d < 0)]
    rw [if_neg (by omega : ¬ s.balance - d < cfg.minimum)]

theorem subBalance_error_of_lt {cfg : BalanceCfg} {s : AccountState} {d : Int}
    (hd : 0 ≤ d) (hinv : cfg.minimum ≤ s.balance)
    (h : s.balance - d < cfg.minimum) :
    subBalance cfg s d = .error "proposed balance is below the minimum" := by
  unfold subBalance
  simp only [if_neg (by omega : ¬ d = 0), if_neg (by omega : ¬ d < 0), if_pos h]

theorem addBalance_ok_inv {cfg : BalanceCfg} {s s1 : AccountState} {d : Int}
    (hd : 0 ≤ d) (hmin : cfg.minimum ≤ s.balance)
    (h : addBalance cfg s d = .ok s1) :
    cfg.minimum ≤ s1.balance ∧ s1.balance ≤ cfg.maximum ∨ s1 = s := by
  unfold addBalance at h
  split at h
  · right; cases h; rfl
  · split at h
    · cases h
    · split at h
      · cases h
      · left; cases h; refine ⟨by simpa using by omega, by simpa using by omega⟩

theorem addBalance_payout {cfg : BalanceCfg} {s s1 : AccountState} {d : Int}
    (h : addBalance cfg s d = .ok s1) :
    s1.payoutAmount = s.payoutAmount ∧ s1.invoices = s.invoices := by
  unfold addBalance at h
  split at h
  · cases h; exact ⟨rfl, rfl⟩
  · split at h
    · cases h
    · split at h
      · cases h
      · cases h; exact ⟨rfl, rfl⟩

theorem subBalance_payout {cfg : BalanceCfg} {s s1 : AccountState} {d : Int}
    (h : subBalance cfg s d = .ok s1) :
    s1.payoutAmount = s.payoutAmount ∧ s1.invoices = s.invoices := by
  unfold subBalance at h
  split at h
  · cases h; exact ⟨rfl, rfl⟩
  · split at h
    · cases h
    · split at h
      · cases h
      · cases h; exact ⟨rfl, rfl⟩

theorem subBalance_ok_inv {cfg : BalanceCfg} {s s1 : AccountState} {d : Int}
    (hd : 0 ≤ d) (hmax : s.balance ≤ cfg.maximum)
    (h : subBalance cfg s d = .ok s1) :
    cfg.minimum ≤ s1.balance ∧ s1.balance ≤ cfg.maximum ∨ s1 = s := by
  unfold subBalance at h
  split at h
  · right; cases h; rfl
  · split at h
    · cases h
    · split at h
      · cases h
      · left; cases h; refine ⟨by simpa using by omega, by simpa using by omega⟩

theorem attemptSettleStart_some {cfg : BalanceCfg} {s s1 : AccountState} {b : Int}
    (h : attemptSettleStart cfg s = .ok (some (s1, b))) :
    s1.payoutAmount = s.payoutAmount ∧ s1.invoices = s.invoices ∧ 0 < b := by
  unfold attemptSettleStart at h
  split at h
  · cases h
  · split at h
    · cases h
    · split at h
      · cases h
      · split at h
        · cases h
        · rename_i settleThreshold hlt hb0 hble
          rcases hadd : addBalance cfg s (min (cfg.settleTo - s.balance) s.payoutAmount) with e | s2
          · rw [hadd] at h; cases h
          · rw [hadd] at h
            simp only [Except.map] at h
            cases h
            rcases addBalance_payout hadd with ⟨hp, hi⟩
            exact ⟨hp, hi, by omega⟩

theorem attemptSettle_payout_mono {cfg : BalanceCfg} {s s1 : AccountState}
    {o : SettleOutcome} (h : attemptSettle cfg s o = .ok s1) :
    s.payoutAmount ≤ s1.payoutAmount := by
  unfold attemptSettle at h
  rcases hst : attemptSettleStart cfg s with e | op
  · rw [hst] at h; cases h
  · rw [hst] at h
    match op with
    | none => cases h; exact le_refl _
    | some (s2, b) =>
      rcases attemptSettleStart_some hst with ⟨hp, _, hb⟩
      unfold attemptSettleFinish at h
      cases o with
      | paymentSucceeds => cases h; simp; omega
      | paymentFails =>
        rcases subBalance_payout h with ⟨hp2, _⟩
        omega

theorem handlePrepare_payout (cfg : BalanceCfg) (maxPacketAmount : Int)
    (s : AccountState) (amount : Int) (hreg : Bool) (ds : DownstreamResp) :
    (handlePrepare cfg maxPacketAmount s amount hreg ds).state.payoutAmount =
      s.payoutAmount := by
  unfold handlePrepare
  split
  · rfl
  · split
    · rfl
    · rcases hadd : addBalance cfg s amount with e | s1
      · rfl
      · rcases addBalance_payout hadd with ⟨hp, _⟩
        cases ds with
        | fulfill => simpa using hp
        | nonFulfill =>
          rcases hsub : subBalance cfg s1 amount with e | s2 <;>
            simp only [hsub]
          · simpa using hp
          · rcases subBalance_payout hsub with ⟨hp2, _⟩
            simpa using hp2.trans hp

theorem handlePrepareResponse_payout_mono {cfg : BalanceCfg}
    {s s1 : AccountState} {amount : Int} {resp : RespPacket} {b : Bool}
    (ha : 0 ≤ amount)
    (h : handlePrepareResponse cfg s amount resp = .ok (s1, b)) :
    s.payoutAmount ≤ s1.payoutAmount := by
  unfold handlePrepareResponse at h
  cases resp with
  | fulfillPacket =>
    rcases hsub : subBalance cfg s amount with e | s2
    · rw [hsub] at h; cases h
    · rw [hsub] at h
      cases h
      rcases subBalance_payout hsub with ⟨hp, _⟩
      simp; omega
  | rejectPacket code => cases h; exact le_refl _
  | otherPacket => cases h; exact le_refl _

theorem handleIncomingInvoice_payout {cfg : BalanceCfg} {s s1 : AccountState}
    {inv : LnInvoice} {hr : Bool} {m : Option Int}
    (h : handleIncomingInvoice cfg s inv hr = .ok (s1, m)) :
    s1.payoutAmount = s.payoutAmount := by
  unfold handleIncomingInvoice at h
  split at h
  · rcases hsub : subBalance cfg s inv.amtPaidSat with e | s2 <;> rw [hsub] at h
    · cases h
    · cases hr with
      | false => simp at h
      | true =>
        simp only [if_true, Except.ok.injEq, Prod.mk.injEq] at h
        rw [← h.1]
        exact (subBalance_payout hsub).1
  · cases h; rfl

/-- Claim C1.  At every post-commit point the balance invariant
`minimum ≤ balance ≤ maximum` holds: starting from a state inside the
bounds, `addBalance(d)` with `d ≥ 0` adds exactly `d` precisely when
`balance + d ≤ maximum` and otherwise throws with the state untouched;
`subBalance(d)` subtracts exactly `d` precisely when
`balance − d ≥ minimum` and otherwise throws with the state untouched;
any state either mutator commits is again inside the bounds; and no
operation of the account (`addBalance`, `subBalance`, `attemptSettle`,
`handlePrepareResponse`, `_handlePrepare`, `_handleIncomingInvoice`,
`_handleInvoiceRequest`) ever decreases `payoutAmount`. -/
theorem claim1_balance_invariant (cfg : BalanceCfg) (s : AccountState)
    (d : Int) (hmin : cfg.minimum ≤ s.balance) (hmax : s.balance ≤ cfg.maximum)
    (hd : 0 ≤ d) :
    (s.balance + d ≤ cfg.maximum →
      addBalance cfg s d = .ok { s with balance := s.balance + d }) ∧
    (cfg.maximum < s.balance + d →
      addBalance cfg s d = .error "proposed balance exceeds maximum") ∧
    (∀ s1, addBalance cfg s d = .ok s1 →
      cfg.minimum ≤ s1.balance ∧ s1.balance ≤ cfg.maximum ∧
        s1.payoutAmount = s.payoutAmount) ∧
    (cfg.minimum ≤ s.balance - d →
      subBalance cfg s d = .ok { s with balance := s.balance - d }) ∧
    (s.balance - d < cfg.minimum →
      subBalance cfg s d = .error "proposed balance is below the minimum") ∧
    (∀ s1, subBalance cfg s d = .ok s1 →
      cfg.minimum ≤ s1.balance ∧ s1.balance ≤ cfg.maximum ∧
        s1.payoutAmount = s.payoutAmount) ∧
    (∀ o s1, attemptSettle cfg s o = .ok s1 →
      s.payoutAmount ≤ s1.payoutAmount) ∧
    (∀ resp s1 b, handlePrepareResponse cfg s d resp = .ok (s1, b) →
      s.payoutAmount ≤ s1.payoutAmount) ∧
    (∀ maxPacketAmount hreg ds,
      (handlePrepare cfg maxPacketAmount s d hreg ds).state.payoutAmount =
        s.payoutAmount) ∧
    (∀ inv hr s1 m, handleIncomingInvoice cfg s inv hr = .ok (s1, m) →
      s1.payoutAmount = s.payoutAmount) ∧
    (∀ pr, (handleInvoiceRequest s pr).payoutAmount = s.payoutAmount) := by
  refine ⟨fun h => addBalance_ok_of_le hd h,
    fun h => addBalance_error_of_gt hd hmax h,
    fun s1 h => ?_,
    fun h => subBalance_ok_of_ge hd h,
    fun h => subBalance_error_of_lt hd hmin h,
    fun s1 h => ?_,
    fun o s1 h => attemptSettle_payout_mono h,
    fun resp s1 b h => handlePrepareResponse_payout_mono hd h,
    fun maxPacketAmount hreg ds => handlePrepare_payout cfg maxPacketAmount s d hreg ds,
    fun inv hr s1 m h => handleIncomingInvoice_payout h,
    fun pr => ?_⟩
  · rcases addBalance_ok_inv hd hmin h with hb | rfl
    · exact ⟨hb.1, hb.2, (addBalance_payout h).1⟩
    · exact ⟨hmin, hmax, rfl⟩
  · rcases subBalance_ok_inv hd hmax h with hb | rfl
    · exact ⟨hb.1, hb.2, (subBalance_payout h).1⟩
    · exact ⟨hmin, hmax, rfl⟩
  · unfold handleInvoiceRequest
    split <;> rfl

/-- Witness for C1 at the configuration of spec scenario 1:
bounds −1000/1000, balance 0, delta 100. -/
theorem claim1_balance_invariant_witness :
    addBalance ⟨-1000, 1000, 0, none⟩ ⟨0, 0, []⟩ 100 =
      .ok { balance := 100, payoutAmount := 0, invoices := [] } :=
  (claim1_balance_invariant ⟨-1000, 1000, 0, none⟩ ⟨0, 0, []⟩ 100
    (by decide) (by decide) (by decide)).1 (by decide)

/-- Claim C2.  When settlement is attempted on an account whose
`settleThreshold` is defined and whose balance is strictly below it
(under the configuration invariant `settleThreshold ≤ settleTo ≤
maximum` and `minimum ≤ balance`), the amount paid is
`budget = min(settleTo − balance, payoutAmount)`; if that budget is not
positive no payment is made and the state is unchanged; on a successful
payment the balance has been increased by `budget` and `payoutAmount`
grows by exactly `budget`; on a failed payment the optimistic
`addBalance(budget)` is reverted by `subBalance(budget)` and the state
returns to exactly its value before the attempt. -/
theorem claim2_settlement (cfg : BalanceCfg) (s : AccountState) (st : Int)
    (o : SettleOutcome)
    (hst : cfg.settleThreshold = some st)
    (hbelow : s.balance < st)
    (h1 : st ≤ cfg.settleTo) (h2 : cfg.settleTo ≤ cfg.maximum)
    (hmin : cfg.minimum ≤ s.balance) :
    (s.payoutAmount ≤ 0 → attemptSettle cfg s o = .ok s) ∧
    (0 < s.payoutAmount →
      (o = .paymentSucceeds →
        attemptSettle cfg s o = .ok
          ⟨s.balance + min (cfg.settleTo - s.balance) s.payoutAmount,
           s.payoutAmount + min (cfg.settleTo - s.balance) s.payoutAmount,
           s.invoices⟩) ∧
      (o = .paymentFails → attemptSettle cfg s o = .ok s)) := by
  have hb0 : 0 < cfg.settleTo - s.balance := by omega
  constructor
  · intro hp
    have hstart : attemptSettleStart cfg s = .ok none := by
      unfold attemptSettleStart
      rw [hst]
      dsimp only
      rw [if_neg (not_not_intro hbelow),
        if_neg (by omega : ¬ cfg.settleTo - s.balance ≤ 0),
        if_pos (le_trans (min_le_right _ _) hp)]
    unfold attemptSettle
    rw [hstart]
  · intro hp
    have hbpos : 0 < min (cfg.settleTo - s.balance) s.payoutAmount :=
      lt_min hb0 hp
    have hroom : s.balance + min (cfg.settleTo - s.balance) s.payoutAmount ≤
        cfg.maximum := by
      have := min_le_left (cfg.settleTo - s.balance) s.payoutAmount
      omega
    have hadd : addBalance cfg s (min (cfg.settleTo - s.balance) s.payoutAmount) =
        .ok { s with balance :=
          s.balance + min (cfg.settleTo - s.balance) s.payoutAmount } :=
      addBalance_ok_of_le (le_of_lt hbpos) hroom
    have hstart : attemptSettleStart cfg s = .ok (some
        ({ s with balance :=
            s.balance + min (cfg.settleTo - s.balance) s.payoutAmount },
          min (cfg.settleTo - s.balance) s.payoutAmount)) := by
      unfold attemptSettleStart
      rw [hst]
      dsimp only
      rw [if_neg (not_not_intro hbelow),
        if_neg (by omega : ¬ cfg.settleTo - s.balance ≤ 0),
        if_neg (not_le.mpr hbpos), hadd]
      rfl
    constructor
    · rintro rfl
      unfold attemptSettle
      rw [hstart]
      rfl
    · rintro rfl
      unfold attemptSettle
      rw [hstart]
      dsimp only
      unfold attemptSettleFinish
      rw [subBalance_ok_of_ge (le_of_lt hbpos) (by simp; omega)]
      have hcancel : s.balance + min (cfg.settleTo - s.balance) s.payoutAmount -
          min (cfg.settleTo - s.balance) s.payoutAmount = s.balance := by omega
      simp only [hcancel]

/-- Witness for C2 at the literal values of spec scenario 5:
`settleThreshold = −100`, `settleTo = 0`, balance −150, payout budget
150; on success the balance returns to 0 and `payoutAmount` grows by
150, and a failed payment leaves the state exactly as before. -/
theorem claim2_settlement_witness :
    attemptSettle ⟨-1000, 1000, 0, some (-100)⟩ ⟨-150, 150, []⟩
        .paymentSucceeds = .ok ⟨0, 300, []⟩ ∧
    attemptSettle ⟨-1000, 1000, 0, some (-100)⟩ ⟨-150, 150, []⟩
        .paymentFails = .ok ⟨-150, 150, []⟩ := by
  have h := claim2_settlement ⟨-1000, 1000, 0, some (-100)⟩ ⟨-150, 150, []⟩
    (-100) .paymentSucceeds rfl (by decide) (by decide) (by decide) (by decide)
  have h2 := claim2_settlement ⟨-1000, 1000, 0, some (-100)⟩ ⟨-150, 150, []⟩
    (-100) .paymentFails rfl (by decide) (by decide) (by decide) (by decide)
  constructor
  · rw [((h.2 (by decide)).1 rfl)]; decide
  · rw [((h2.2 (by decide)).2 rfl)]

/-- Claim C3 evaluation.  `attemptSettle` has no single-flight guard:
its synchronous front runs up to the optimistic `addBalance` and then
awaits the invoice request and payment.  Starting from balance −300 with
`settleThreshold = −100`, `settleTo = 0` and `payoutAmount = 50`, the
first trigger starts a payment of 50 (balance moves to −250, still below
the threshold), and a second trigger arriving while that payment is
outstanding starts a second payment of 50 — two concurrently outstanding
`lnd.payInvoice` calls for the same account. -/
theorem claim3_second_payment_starts_while_first_outstanding :
    attemptSettleStart ⟨-1000, 1000, 0, some (-100)⟩ ⟨-300, 50, []⟩ =
      .ok (some (⟨-250, 50, []⟩, 50)) ∧
    attemptSettleStart ⟨-1000, 1000, 0, some (-100)⟩ ⟨-250, 50, []⟩ =
      .ok (some (⟨-200, 50, []⟩, 50)) := by
  decide

/-- Counterexample to claim C4 as stated.  The claim asserts that on a
FULFILL the egress balance is lower by the outgoing amount after the
packet completes, unconditionally for every forwarded packet.  But when
the egress account sits at its configured minimum (here minimum 0,
balance 0) and the outgoing amount is 50, `handlePrepareResponse` runs
`subBalance(50)`, which throws, the error is rethrown as an
`InternalError`, and the egress balance is not reduced. -/
theorem claim4_counterexample :
    handlePrepareResponse ⟨0, 1000, 0, none⟩ ⟨0, 0, []⟩ 50 .fulfillPacket =
      .error "proposed balance is below the minimum" ∧
    (handlePrepareResponse ⟨0, 1000, 0, none⟩ ⟨0, 0, []⟩ 50
      .fulfillPacket).isOk = false := by
  decide

/-- Claim C4 as amended.  For a forwarded packet (registered handler,
amount within the max-packet bound, enough room for the optimistic
debit): on a FULFILL response the ingress account balance ends higher by
the PREPARE amount; on the egress account, `subBalance(outgoingAmount)`
succeeds and lowers the balance by the outgoing amount (raising
`payoutAmount` by the same) exactly when `balance − outgoingAmount ≥
minimum` — otherwise it throws, `handlePrepareResponse` rethrows an
`InternalError`, and the egress balance and `payoutAmount` are
unchanged; on a REJECT or timeout both the ingress state (whose
`addBalance` is reverted) and the egress state are exactly their values
from before the packet. -/
theorem claim4_conservation (cfg : BalanceCfg) (maxPacketAmount : Int)
    (sIn sOut : AccountState) (aIn aOut : Int)
    (haIn : 0 ≤ aIn) (hmaxP : aIn ≤ maxPacketAmount)
    (hroom : sIn.balance + aIn ≤ cfg.maximum)
    (hminIn : cfg.minimum ≤ sIn.balance)
    (haOut : 0 ≤ aOut) (hinvOut : cfg.minimum ≤ sOut.balance) :
    (handlePrepare cfg maxPacketAmount sIn aIn true .fulfill =
      ⟨{ sIn with balance := sIn.balance + aIn }, true,
        .ilpResponse .fulfill⟩) ∧
    (handlePrepare cfg maxPacketAmount sIn aIn true .nonFulfill =
      ⟨sIn, true, .ilpResponse .nonFulfill⟩) ∧
    (cfg.minimum ≤ sOut.balance - aOut →
      handlePrepareResponse cfg sOut aOut .fulfillPacket =
        .ok (⟨sOut.balance - aOut, sOut.payoutAmount + aOut, sOut.invoices⟩,
          true)) ∧
    (sOut.balance - aOut < cfg.minimum →
      handlePrepareResponse cfg sOut aOut .fulfillPacket =
        .error "proposed balance is below the minimum") ∧
    (∀ code, handlePrepareResponse cfg sOut aOut (.rejectPacket code) =
      .ok (sOut, decide (code = "T04"))) ∧
    (handlePrepareResponse cfg sOut aOut .otherPacket = .ok (sOut, false)) := by
  have hadd : addBalance cfg sIn aIn =
      .ok { sIn with balance := sIn.balance + aIn } :=
    addBalance_ok_of_le haIn hroom
  refine ⟨?_, ?_, ?_, ?_, ?_, ?_⟩
  · unfold handlePrepare
    rw [if_neg (by simp), if_neg (not_lt.mpr hmaxP), hadd]
  · unfold handlePrepare
    rw [if_neg (by simp), if_neg (not_lt.mpr hmaxP), hadd]
    dsimp only
    rw [subBalance_ok_of_ge haIn (by simpa using by omega)]
    have hcancel : sIn.balance + aIn - aIn = sIn.balance := by omega
    simp only [hcancel]
  · intro hminOut
    unfold handlePrepareResponse
    rw [subBalance_ok_of_ge haOut hminOut]
  · intro hbelow
    unfold handlePrepareResponse
    rw [subBalance_error_of_lt haOut hinvOut hbelow]
  · intro code
    unfold handlePrepareResponse
    by_cases hc : code = "T04" <;> simp [hc]
  · rfl

/-- Witness for C4 at the literal values of spec scenario 1: rate 1.0,
amount 100, ingress A and egress B both bounded by ±1000 and starting at
0; the fulfilled packet leaves A at +100 and B at −100, and an egress
account at balance −980 cannot cover the debit, so its balance is kept. -/
theorem claim4_conservation_witness :
    handlePrepare ⟨-1000, 1000, 0, none⟩ 1000 ⟨0, 0, []⟩ 100 true .fulfill =
      ⟨⟨100, 0, []⟩, true, .ilpResponse .fulfill⟩ ∧
    handlePrepareResponse ⟨-1000, 1000, 0, none⟩ ⟨0, 0, []⟩ 100
        .fulfillPacket = .ok (⟨-100, 100, []⟩, true) ∧
    handlePrepareResponse ⟨-1000, 1000, 0, none⟩ ⟨-980, 0, []⟩ 100
        .fulfillPacket = .error "proposed balance is below the minimum" := by
  have h := claim4_conservation ⟨-1000, 1000, 0, none⟩ 1000 ⟨0, 0, []⟩
    ⟨0, 0, []⟩ 100 100 (by decide) (by decide) (by decide) (by decide)
    (by decide) (by decide)
  have h2 := claim4_conservation ⟨-1000, 1000, 0, none⟩ 1000 ⟨0, 0, []⟩
    ⟨-980, 0, []⟩ 100 100 (by decide) (by decide) (by decide) (by decide)
    (by decide) (by decide)
  exact ⟨h.1, h.2.2.1 (by decide), h2.2.2.2.1 (by decide)⟩

/-- Claim C5.  An incoming PREPARE whose amount strictly exceeds the
account's `maxPacketAmount` is answered (for any downstream behaviour)
with a REJECT of code F08 whose data encodes the received amount and the
configured maximum; the packet is not forwarded to the data handler and
the account state is unchanged. -/
theorem claim5_max_packet_f08 (cfg : BalanceCfg) (maxPacketAmount : Int)
    (s : AccountState) (amount : Int) (ds : DownstreamResp)
    (h : maxPacketAmount < amount) :
    handlePrepare cfg maxPacketAmount s amount true ds =
      ⟨s, false, .reject ⟨"F08", some (amount, maxPacketAmount)⟩⟩ := by
  unfold handlePrepare
  rw [if_neg (by simp), if_pos h]
  rfl

/-- Witness for C5 at the literal values of spec scenario 4:
`maxPacketAmount = 50` and a PREPARE of amount 100 produce REJECT F08
encoding received 100 and maximum 50 with the balance untouched. -/
theorem claim5_max_packet_f08_witness :
    handlePrepare ⟨-1000, 1000, 0, none⟩ 50 ⟨0, 0, []⟩ 100 true .fulfill =
      ⟨⟨0, 0, []⟩, false, .reject ⟨"F08", some (100, 50)⟩⟩ :=
  claim5_max_packet_f08 ⟨-1000, 1000, 0, none⟩ 50 ⟨0, 0, []⟩ 100 .fulfill
    (by decide)

/-- Counterexample to claim C6 as stated.  With a supplied
`settleThreshold` of 0, `minimum = 1`, `settleTo = 0` and
`maximum = 10`, the chain `minimum ≤ settleThreshold ≤ settleTo ≤
maximum` fails (1 ≤ 0 is false), so the claim requires the constructor
to throw; but a threshold of 0 is falsy in JS, the constructor takes the
receive-only branch, only checks `maximum > minimum`, and succeeds. -/
theorem claim6_counterexample :
    (buildBalance ⟨1, 10, 0, some 0⟩).isOk = true ∧
    ¬ ((1 : Int) ≤ 0 ∧ (0 : Int) ≤ 0 ∧ (0 : Int) ≤ 10) := by
  decide

/-- Claim C6 as amended.  A supplied `settleThreshold` of 0 is JS-falsy
and stored as undefined.  When the stored threshold is defined (supplied
and nonzero), construction succeeds exactly when `minimum ≤
settleThreshold ≤ settleTo ≤ maximum`; when it is absent (or zero),
construction succeeds exactly when `minimum < maximum`, and the account
is receive-only: `attemptSettle` returns without initiating any payment
and leaves the state unchanged. -/
theorem claim6_constructor_validation (opts : BalanceOpts) :
    ((buildBalance opts).isOk = true ↔
      (match effectiveThreshold opts.settleThreshold with
       | some v => opts.minimum ≤ v ∧ v ≤ opts.settleTo ∧
           opts.settleTo ≤ opts.maximum
       | none => opts.minimum < opts.maximum)) ∧
    (∀ cfg, buildBalance opts = .ok cfg →
      cfg.settleThreshold = effectiveThreshold opts.settleThreshold) ∧
    (∀ cfg s o, cfg.settleThreshold = none →
      attemptSettle cfg s o = .ok s) := by
  refine ⟨?_, ?_, ?_⟩
  · unfold buildBalance
    rcases h : effectiveThreshold opts.settleThreshold with _ | v
    · dsimp only
      split
      · simp only [Except.isOk, Except.toBool]
        constructor
        · intro hc; cases hc
        · intro hc; omega
      · simp only [Except.isOk, Except.toBool, true_iff]
        omega
    · dsimp only
      split
      · simp only [Except.isOk, Except.toBool]
        constructor
        · intro hc; cases hc
        · intro hc; omega
      · split
        · simp only [Except.isOk, Except.toBool]
          constructor
          · intro hc; cases hc
          · intro hc; omega
        · split
          · simp only [Except.isOk, Except.toBool]
            constructor
            · intro hc; cases hc
            · intro hc; omega
          · simp only [Except.isOk, Except.toBool, true_iff]
            omega
  · intro cfg hc
    unfold buildBalance at hc
    rcases h : effectiveThreshold opts.settleThreshold with _ | v <;>
      rw [h] at hc <;> dsimp only at hc
    · split at hc
      · cases hc
      · cases hc; rfl
    · split at hc
      · cases hc
      · split at hc
        · cases hc
        · split at hc
          · cases hc
          · cases hc; rfl
  · intro cfg s o hnone
    unfold attemptSettle attemptSettleStart
    rw [hnone]

/-- Witness for C6: a nonzero threshold configuration satisfying the
chain is accepted, and a receive-only account (absent threshold) leaves
the state unchanged on `attemptSettle`. -/
theorem claim6_constructor_validation_witness :
    (buildBalance ⟨-1000, 1000, 0, some (-100)⟩).isOk = true ∧
    attemptSettle ⟨-1000, 1000, 0, none⟩ ⟨-5, 7, []⟩ .paymentSucceeds =
      .ok ⟨-5, 7, []⟩ := by
  constructor
  · exact (claim6_constructor_validation ⟨-1000, 1000, 0, some (-100)⟩).1.mpr
      ⟨by decide, by decide, by decide⟩
  · exact (claim6_constructor_validation ⟨-1000, 1000, 0, some (-100)⟩).2.2
      ⟨-1000, 1000, 0, none⟩ ⟨-5, 7, []⟩ .paymentSucceeds rfl

/-- Claim C7 evaluation.  `_handleIncomingInvoice` never removes a
consumed payment request from `account.invoices`, so a duplicate
notification for the same settled invoice debits the balance again and
invokes the money handler again: starting at balance 100 with issued
invoice pr1 and a settled notification of 30 satoshis, the first
delivery moves the balance to 70 and pays the handler 30, and delivering
the identical notification a second time moves the balance to 40 and
pays the handler another 30. -/
theorem claim7_duplicate_invoice_double_credit :
    handleIncomingInvoice ⟨0, 1000, 0, none⟩ ⟨100, 0, ["pr1"]⟩
        ⟨"pr1", true, 30⟩ true = .ok (⟨70, 0, ["pr1"]⟩, some 30) ∧
    handleIncomingInvoice ⟨0, 1000, 0, none⟩ ⟨70, 0, ["pr1"]⟩
        ⟨"pr1", true, 30⟩ true = .ok (⟨40, 0, ["pr1"]⟩, some 30) := by
  decide

end Lightning

namespace IlpCodec

/-- Number of binary digits of a natural number, as produced by the JS
expression `n.toString(2).length` (one digit for 0). -/
def binDigits (n : Nat) : Nat :=
  if n = 0 then 1 else Nat.log2 n + 1

/-- Big-endian byte encoding of `v` padded to exactly `len` bytes
(`Buffer.writeUIntBE` / the hex-padding path of `Writer.writeUInt` in
oer-utils writer.ts). -/
def natBytesBE (v : Nat) : Nat → List Nat
  | 0 => []
  | len + 1 => natBytesBE (v / 256) len ++ [v % 256]

/-- Embedding of `Writer.writeUInt8` (oer-utils writer.ts) at the call
sites of the codec, which always pass a value below 256. -/
def writeUInt8 (v : Nat) : List Nat :=
  [v % 256]

/-- Embedding of `Writer.writeVarOctetString` (oer-utils writer.ts lines
191-214): buffers of at most 127 bytes are prefixed with their length in
one byte; longer buffers are prefixed with `0x80 ||| lengthOfLength`
followed by the length in `lengthOfLength` big-endian bytes. -/
def writeVarOctetString (b : List Nat) : List Nat :=
  if b.length ≤ 127 then b.length :: b
  else
    let lengthOfLength := (binDigits b.length + 7) / 8
    (128 ||| lengthOfLength) :: natBytesBE b.length lengthOfLength ++ b

/-- Bytes of a JS string under `Buffer.from(s, 'ascii')`; the inputs the
codec is exercised on here are 7-bit ASCII, for which this is the
character code of each character. -/
def asciiBytes (s : String) : List Nat :=
  s.data.map (fun c => c.toNat % 256)

/-- Value of one base64 character (standard and url alphabets), `none`
for characters Node's base64 decoder ignores. -/
def base64CharVal (c : Char) : Option Nat :=
  if 'A' ≤ c ∧ c ≤ 'Z' then some (c.toNat - 65)
  else if 'a' ≤ c ∧ c ≤ 'z' then some (c.toNat - 71)
  else if '0' ≤ c ∧ c ≤ '9' then some (c.toNat + 4)
  else if c = '+' ∨ c = '-' then some 62
  else if c = '/' ∨ c = '_' then some 63
  else none

/-- Byte output of base64 decoding from 6-bit groups: 4 input
characters yield 3 bytes, a trailing 3 yield 2, a trailing 2 yield 1. -/
def base64Groups : List Nat → List Nat
  | a :: b :: c :: d :: rest =>
    (a * 4 + b / 16) :: ((b % 16) * 16 + c / 4) :: ((c % 4) * 64 + d) ::
      base64Groups rest
  | [a, b] => [a * 4 + b / 16]
  | [a, b, c] => [a * 4 + b / 16, (b % 16) * 16 + c / 4]
  | _ => []

/-- Bytes of `Buffer.from(s, 'base64')` on canonical inputs: padding
terminates the payload and characters outside the alphabet are
skipped. -/
def base64Decode (s : String) : List Nat :=
  base64Groups ((s.data.takeWhile (fun c => c ≠ '=')).filterMap base64CharVal)

/-- Embedding of `serializeEnvelope` (ilp-packet index.ts lines 20-25):
a one-byte type followed by the contents as a variable-length octet
string. -/
def serializeEnvelope (ty : Nat) (contents : List Nat) : List Nat :=
  writeUInt8 ty ++ writeVarOctetString contents

/-- JSON form of an ILP forwarded payment (ilp-packet index.ts
`IlpForwardedPayment`). -/
structure ForwardedPayment where
  account : String
  data : String
  deriving Repr, DecidableEq

/-- Embedding of `serializeIlpForwardedPayment` (ilp-packet index.ts
lines 95-108): the ASCII account and the base64-decoded data as
variable-length octet strings, a zero extensibility byte, wrapped in a
type-10 envelope.  (`json.data || ''` only maps the empty payload to
itself.) -/
def serializeIlpForwardedPayment (json : ForwardedPayment) : List Nat :=
  serializeEnvelope 10
    (writeVarOctetString (asciiBytes json.account) ++
     writeVarOctetString (base64Decode json.data) ++
     writeUInt8 0)

/-- Errors of the embedded deserializers: a parse failure, the
wrong-type guard, and the JS `ReferenceError` raised by evaluating an
identifier that is not defined. -/
inductive CodecErr
  | parseFailure
  | incorrectType
  | referenceErrorBase64urlUndefined
  deriving Repr, DecidableEq

/-- Modelled from the spec: `Reader.readUInt8` of oer-utils (the reader
half of the octet-exact codec is not in this snapshot; it is the inverse
of the in-repo writer format): one byte is consumed. -/
def readUInt8 : List Nat → Except CodecErr (Nat × List Nat)
  | [] => .error .parseFailure
  | b :: rest => .ok (b, rest)

/-- Modelled from the spec: `Reader.readVarOctetString` of oer-utils,
the inverse of `writeVarOctetString`: a length byte below 128 is a
direct length; otherwise its low bits give the byte count of a
big-endian length which follows. -/
def readVarOctetString (bytes : List Nat) :
    Except CodecErr (List Nat × List Nat) :=
  match readUInt8 bytes with
  | .error e => .error e
  | .ok (lengthByte, r0) =>
    if lengthByte ≤ 127 then
      if r0.length < lengthByte then .error .parseFailure
      else .ok (r0.take lengthByte, r0.drop lengthByte)
    else
      let lengthOfLength := lengthByte % 128
      if r0.length < lengthOfLength then .error .parseFailure
      else
        let len := (r0.take lengthOfLength).foldl (fun a b => a * 256 + b) 0
        let r1 := r0.drop lengthOfLength
        if r1.length < len then .error .parseFailure
        else .ok (r1.take len, r1.drop len)

/-- Embedding of `deserializeEnvelope` (ilp-packet index.ts lines
27-33). -/
def deserializeEnvelope (binary : List Nat) :
    Except CodecErr (Nat × List Nat) :=
  match readUInt8 binary with
  | .error e => .error e
  | .ok (ty, rest) =>
    match readVarOctetString rest with
    | .error e => .error e
    | .ok (contents, _) => .ok (ty, contents)

/-- Embedding of `deserializeIlpForwardedPayment` (ilp-packet index.ts
lines 110-128).  After the envelope and type check, line 119 reads the
account; line 120 is `const data = base64url(reader.readVarOctetString())`,
but `base64url` is not defined anywhere in the module (only
`bufferToBase64url` is imported), so resolving the callee raises a
`ReferenceError` before the argument is evaluated, for every input that
reaches this line. -/
def deserializeIlpForwardedPayment (binary : List Nat) :
    Except CodecErr ForwardedPayment :=
  match deserializeEnvelope binary with
  | .error e => .error e
  | .ok (ty, contents) =>
    if ty ≠ 10 then .error .incorrectType
    else
      match readVarOctetString contents with
      | .error e => .error e
      | .ok (_account, _r1) => .error .referenceErrorBase64urlUndefined

/-- Claim C8 evaluation.  The serializer is byte-exact on the forwarded
payment with account g.alice and empty data, but deserializing its own
output raises the `ReferenceError` of the undefined `base64url`
identifier instead of returning the packet, so
`deserialize(serialize(pkt))` is not the identity for the supported
`TYPE_ILP_FORWARDED_PAYMENT` form. -/
theorem claim8_roundtrip_reference_error :
    serializeIlpForwardedPayment ⟨"g.alice", ""⟩ =
      [10, 10, 7, 103, 46, 97, 108, 105, 99, 101, 0, 0] ∧
    deserializeIlpForwardedPayment
        (serializeIlpForwardedPayment ⟨"g.alice", ""⟩) =
      .error .referenceErrorBase64urlUndefined := by
  decide

end IlpCodec

namespace RouteBroadcaster

/-- One route of `routingTables.toJSON(...)` as seen by
`_broadcastToLedger` (route-broadcaster.js): the fields the epoch-cursor
logic reads are its identity (`destination_ledger`) and
`added_during_epoch`. -/
structure RouteJson where
  destinationLedger : String
  addedDuringEpoch : Int
  deriving Repr, DecidableEq

/-- The effective epoch cursor for a peer: the JS expression
`this.peerEpochs[adjacentLedger] || -1` (route-broadcaster.js line 318),
where an absent entry and a stored 0 (both falsy) read as −1. -/
def effCursor : Option Int → Int
  | none => -1
  | some e => if e = 0 then -1 else e

/-- State of the broadcaster that `_broadcastToLedger` touches for one
fixed adjacent peer: the stored `peerEpochs` entry, plus a history
variable `offeredLog` accumulating every route ever included in a
broadcast payload to this peer.  (The failure branch additionally marks
lost ledger links as detected-down; that bookkeeping never touches
`peerEpochs` and is omitted.) -/
structure BroadcastState where
  peerEpoch : Option Int
  offeredLog : List RouteJson
  deriving Repr, DecidableEq

/-- One invocation of `_broadcastToLedger` as seen at the resolution of
its `sendRequest` promise: the per-peer route table snapshot, the value
of `routingTables.publicTables.currentEpoch`, and whether the send was
acknowledged. -/
structure StepInput where
  routes : List RouteJson
  epoch : Int
  ok : Bool
  deriving Repr, DecidableEq

/-- The routes included in a broadcast payload
(`routesNewToConnector`, route-broadcaster.js line 318): those whose
`added_during_epoch` exceeds the effective cursor. -/
def sentRoutes (cursor : Int) (routes : List RouteJson) : List RouteJson :=
  routes.filter (fun r => cursor < r.addedDuringEpoch)

/-- Embedding of `_broadcastToLedger` (route-broadcaster.js lines
316-358) for one peer: the new routes are offered, and then on success
`peerEpochs[peer] := currentEpoch` while on failure
`peerEpochs[peer] := -1`. -/
def broadcastToLedger (st : BroadcastState) (i : StepInput) :
    BroadcastState :=
  { peerEpoch := some (if i.ok then i.epoch else -1),
    offeredLog :=
      st.offeredLog ++ sentRoutes (effCursor st.peerEpoch) i.routes }

/-- A sequence of broadcast ticks to the same peer. -/
def runBroadcasts (st : BroadcastState) : List StepInput → BroadcastState
  | [] => st
  | i :: rest => runBroadcasts (broadcastToLedger st i) rest

/-- The epoch and table snapshot of the most recent acknowledged
broadcast in a trace, if any (`none` after a failure, whose cursor reset
makes every nonnegative-epoch route eligible again). -/
def lastAck (la : Option (Int × List RouteJson)) :
    List StepInput → Option (Int × List RouteJson)
  | [] => la
  | i :: rest =>
    lastAck (if i.ok then some (i.epoch, i.routes) else none) rest

/-- Well-formedness of one tick against the last acknowledged snapshot:
epochs are nonnegative, and any route now in the table whose
`added_during_epoch` is at most the epoch recorded at the last
acknowledged broadcast was already in the table at that broadcast (the
epoch log is append-only: later table changes carry later epochs). -/
def stepOK (la : Option (Int × List RouteJson)) (i : StepInput) : Prop :=
  0 ≤ i.epoch ∧ (∀ r ∈ i.routes, 0 ≤ r.addedDuringEpoch) ∧
  (match la with
   | none => True
   | some (e, rs) => ∀ r ∈ i.routes, r.addedDuringEpoch ≤ e → r ∈ rs)

/-- Well-formedness of a whole trace of ticks. -/
def wfTrace (la : Option (Int × List RouteJson)) : List StepInput → Prop
  | [] => True
  | i :: rest =>
    stepOK la i ∧ wfTrace (if i.ok then some (i.epoch, i.routes) else none) rest

/-- Inductive invariant tying the stored cursor to the offered history:
after a failure the effective cursor is −1; after an acknowledged
broadcast at epoch `e` of table `rs`, the effective cursor is at most
`e` and every route of `rs` with epoch at or below the cursor has been
offered. -/
def Inv (st : BroadcastState) (la : Option (Int × List RouteJson)) : Prop :=
  match la with
  | none => effCursor st.peerEpoch = -1
  | some (e, rs) =>
    effCursor st.peerEpoch ≤ e ∧
    ∀ r ∈ rs, r.addedDuringEpoch ≤ effCursor st.peerEpoch →
      r ∈ st.offeredLog

theorem effCursor_none : effCursor none = -1 := rfl

theorem broadcastToLedger_peerEpoch (st : BroadcastState) (i : StepInput) :
    (broadcastToLedger st i).peerEpoch =
      some (if i.ok then i.epoch else -1) := rfl

theorem broadcastToLedger_offeredLog (st : BroadcastState) (i : StepInput) :
    (broadcastToLedger st i).offeredLog =
      st.offeredLog ++ sentRoutes (effCursor st.peerEpoch) i.routes := rfl

theorem cursor_ge_neg_one :
    ∀ (tr : List StepInput) (st : BroadcastState)
      (la : Option (Int × List RouteJson)),
      wfTrace la tr → -1 ≤ effCursor st.peerEpoch →
      -1 ≤ effCursor (runBroadcasts st tr).peerEpoch
  | [], _, _, _, hst => hst
  | i :: rest, st, la, hwf, _ => by
    refine cursor_ge_neg_one rest (broadcastToLedger st i) _ hwf.2 ?_
    rw [broadcastToLedger_peerEpoch]
    by_cases hio : i.ok
    · have hep := hwf.1.1
      simp only [hio, if_true, effCursor]
      split <;> omega
    · simp [hio, effCursor]

theorem broadcastToLedger_preserves_Inv {st : BroadcastState}
    {la : Option (Int × List RouteJson)} {i : StepInput}
    (hok : stepOK la i) (hinv : Inv st la) :
    Inv (broadcastToLedger st i)
      (if i.ok then some (i.epoch, i.routes) else none) := by
  obtain ⟨hep, hrt, hla⟩ := hok
  by_cases hio : i.ok
  · rw [if_pos hio]
    refine ⟨?_, ?_⟩
    · rw [broadcastToLedger_peerEpoch]
      simp only [hio, if_true, effCursor]
      split <;> omega
    · intro r hr hle
      rw [broadcastToLedger_offeredLog]
      by_cases hs : effCursor st.peerEpoch < r.addedDuringEpoch
      · refine List.mem_append_right _ ?_
        unfold sentRoutes
        exact List.mem_filter.mpr ⟨hr, by simpa using hs⟩
      · push_neg at hs
        refine List.mem_append_left _ ?_
        rcases la with _ | ⟨e, rs⟩
        · unfold Inv at hinv
          have := hrt r hr
          omega
        · obtain ⟨hlee, hmem⟩ := hinv
          exact hmem r (hla r hr (le_trans hs hlee)) hs
  · rw [if_neg hio]
    show effCursor (broadcastToLedger st i).peerEpoch = -1
    rw [broadcastToLedger_peerEpoch]
    simp [hio, effCursor]

theorem runBroadcasts_preserves_Inv :
    ∀ (tr : List StepInput) (st : BroadcastState)
      (la : Option (Int × List RouteJson)),
      wfTrace la tr → Inv st la →
      Inv (runBroadcasts st tr) (lastAck la tr)
  | [], _, _, _, hinv => hinv
  | i :: rest, st, _la, hwf, hinv =>
    runBroadcasts_preserves_Inv rest (broadcastToLedger st i) _
      hwf.2 (broadcastToLedger_preserves_Inv hwf.1 hinv)

theorem runBroadcasts_append (st : BroadcastState) :
    ∀ (tr : List StepInput) (i : StepInput),
      runBroadcasts st (tr ++ [i]) =
        broadcastToLedger (runBroadcasts st tr) i := by
  intro tr
  induction tr generalizing st with
  | nil => intro i; rfl
  | cons j rest ih => intro i; exact ih (broadcastToLedger st j) i

theorem wfTrace_append {tr : List StepInput} {i : StepInput} :
    ∀ {la}, wfTrace la (tr ++ [i]) →
      wfTrace la tr ∧ stepOK (lastAck la tr) i := by
  induction tr with
  | nil => intro _la h; exact ⟨trivial, h.1⟩
  | cons j rest ih =>
    intro la h
    obtain ⟨hj, hrest⟩ := h
    obtain ⟨h1, h2⟩ := ih hrest
    exact ⟨⟨hj, h1⟩, h2⟩

/-- Claim C9.  Over any well-formed trace of broadcasts to a peer
(append-only epoch log, nonnegative epochs) ending with tick `i`: the
per-peer epoch cursor is set to the current epoch exactly on an
acknowledged send; after a failed send it is reset to −1, which never
advances the effective cursor; every route of the current table whose
epoch is at or below the effective cursor has been offered to the peer;
and after a failure the next tick offers every pending route again. -/
theorem claim9_epoch_cursor (tr : List StepInput) (i : StepInput)
    (hwf : wfTrace none (tr ++ [i])) :
    (i.ok = true →
      (runBroadcasts ⟨none, []⟩ (tr ++ [i])).peerEpoch = some i.epoch) ∧
    (i.ok = false →
      (runBroadcasts ⟨none, []⟩ (tr ++ [i])).peerEpoch = some (-1) ∧
      effCursor (runBroadcasts ⟨none, []⟩ (tr ++ [i])).peerEpoch ≤
        effCursor (runBroadcasts ⟨none, []⟩ tr).peerEpoch) ∧
    (∀ r ∈ i.routes,
      r.addedDuringEpoch ≤
          effCursor (runBroadcasts ⟨none, []⟩ (tr ++ [i])).peerEpoch →
      r ∈ (runBroadcasts ⟨none, []⟩ (tr ++ [i])).offeredLog) ∧
    (i.ok = false → ∀ routes2 : List RouteJson,
      (∀ r ∈ routes2, 0 ≤ r.addedDuringEpoch) →
      sentRoutes
        (effCursor (runBroadcasts ⟨none, []⟩ (tr ++ [i])).peerEpoch)
        routes2 = routes2) := by
  obtain ⟨hwf1, hstep⟩ := wfTrace_append hwf
  have hpre : Inv (runBroadcasts ⟨none, []⟩ tr) (lastAck none tr) :=
    runBroadcasts_preserves_Inv tr ⟨none, []⟩ none hwf1 rfl
  have hpost := broadcastToLedger_preserves_Inv hstep hpre
  rw [runBroadcasts_append]
  refine ⟨?_, ?_, ?_, ?_⟩
  · intro hio
    rw [broadcastToLedger_peerEpoch]
    simp [hio]
  · intro hio
    have hpe : (broadcastToLedger (runBroadcasts ⟨none, []⟩ tr) i).peerEpoch =
        some (-1) := by
      rw [broadcastToLedger_peerEpoch]
      simp [hio]
    refine ⟨hpe, ?_⟩
    rw [hpe]
    have := cursor_ge_neg_one tr ⟨none, []⟩ none hwf1 (by rw [effCursor_none])
    simpa [effCursor] using this
  · intro r hr hle
    by_cases hio : i.ok
    · rw [if_pos hio] at hpost
      exact hpost.2 r hr hle
    · exfalso
      have hcz : effCursor
          (broadcastToLedger (runBroadcasts ⟨none, []⟩ tr) i).peerEpoch = -1 := by
        rw [broadcastToLedger_peerEpoch]
        simp [hio, effCursor]
      rw [hcz] at hle
      have := hstep.2.1 r hr
      omega
  · intro hio routes2 hr2
    have hcz : effCursor
        (broadcastToLedger (runBroadcasts ⟨none, []⟩ tr) i).peerEpoch = -1 := by
      rw [broadcastToLedger_peerEpoch]
      simp [hio, effCursor]
    rw [hcz]
    unfold sentRoutes
    refine List.filter_eq_self.mpr ?_
    intro r hr
    have := hr2 r hr
    simpa using by omega

/-- Witness for C9: a failed tick at epoch 3 followed by an
acknowledged tick at epoch 5 leaves the peer cursor at 5. -/
theorem claim9_epoch_cursor_witness :
    (runBroadcasts ⟨none, []⟩
        ([⟨[⟨"g.x", 1⟩], 3, false⟩] ++
          [⟨[⟨"g.x", 1⟩, ⟨"g.y", 4⟩], 5, true⟩])).peerEpoch = some 5 :=
  (claim9_epoch_cursor [⟨[⟨"g.x", 1⟩], 3, false⟩]
    ⟨[⟨"g.x", 1⟩, ⟨"g.y", 4⟩], 5, true⟩
    ⟨⟨by decide, by decide, True.intro⟩,
      ⟨by decide, by decide, True.intro⟩, True.intro⟩).1 rfl

end RouteBroadcaster

namespace StoreWrapper

/-- A write queued on the `_write` promise chain of `StoreWrapper`
(store-wrapper.ts lines 46-63): a `put` of the serialized value or a
`del`. -/
inductive WriteOp
  | put (key value : String)
  | del (key : String)
  deriving Repr, DecidableEq

/-- State of a `StoreWrapper`: the synchronous `_cache` (a JS `Map`
whose entries may hold `undefined`, embedded as an association list of
`Option String`) and the ordered backlog of writes queued on the
`_write` promise chain and not yet applied to the backing store. -/
structure SWState where
  cache : List (String × Option String)
  writeQueue : List WriteOp
  deriving Repr, DecidableEq

/-- JS `Map.prototype.has`. -/
def cacheHas (cache : List (String × Option String)) (k : String) : Bool :=
  cache.any (fun p => p.1 = k)

/-- JS `Map.prototype.get` (distinguishes a missing key from a key
mapped to `undefined`). -/
def cacheGet (cache : List (String × Option String)) (k : String) :
    Option (Option String) :=
  (cache.find? (fun p => p.1 = k)).map (·.2)

/-- JS `Map.prototype.set`. -/
def cacheSet (cache : List (String × Option String)) (k : String)
    (v : Option String) : List (String × Option String) :=
  if cacheHas cache k then
    cache.map (fun p => if p.1 = k then (k, v) else p)
  else cache ++ [(k, v)]

/-- JS `Map.prototype.delete`. -/
def cacheDelete (cache : List (String × Option String)) (k : String) :
    List (String × Option String) :=
  cache.filter (fun p => p.1 ≠ k)

/-- The externally visible events of a `StoreWrapper`, in the order the
single-threaded runtime executes them.  `loadResolve k v` is the
continuation of `_load` after `await this._store.get(key)` returns `v`
(the parse step does not affect which entry is written); it only runs
for a load that earlier found the key absent and started the store
read. -/
inductive SWEvent
  | setEv (k v : String)
  | deleteEv (k : String)
  | setCacheEv (k v : String)
  | unloadEv (k : String)
  | loadResolve (k : String) (v : Option String)
  deriving Repr, DecidableEq

/-- One event of the `StoreWrapper` (store-wrapper.ts): `set` updates
the cache synchronously and queues a `put` on the promise chain;
`delete` removes from the cache and queues a `del`; `setCache` and
`unload` only touch the cache; and the second half of `_load`
re-checks `!this._cache.has(key)` before caching the store value, so a
key cached in the meantime keeps its cached value and the stale store
value is discarded. -/
def swStep (s : SWState) : SWEvent → SWState
  | .setEv k v =>
    { cache := cacheSet s.cache k (some v),
      writeQueue := s.writeQueue ++ [.put k v] }
  | .deleteEv k =>
    { cache := cacheDelete s.cache k,
      writeQueue := s.writeQueue ++ [.del k] }
  | .setCacheEv k v => { s with cache := cacheSet s.cache k (some v) }
  | .unloadEv k => { s with cache := cacheDelete s.cache k }
  | .loadResolve k v =>
    if cacheHas s.cache k then s
    else { s with cache := cacheSet s.cache k v }

/-- A sequence of `StoreWrapper` events. -/
def swRun (s : SWState) : List SWEvent → SWState
  | [] => s
  | e :: rest => swRun (swStep s e) rest

/-- The store writes an event issues: only `set` and `delete` enqueue
on the promise chain. -/
def writesOf : SWEvent → List WriteOp
  | .setEv k v => [.put k v]
  | .deleteEv k => [.del k]
  | _ => []

theorem swStep_writeQueue (s : SWState) (e : SWEvent) :
    (swStep s e).writeQueue = s.writeQueue ++ writesOf e := by
  cases e with
  | setEv k v => rfl
  | deleteEv k => rfl
  | setCacheEv k v => simp [swStep, writesOf]
  | unloadEv k => simp [swStep, writesOf]
  | loadResolve k v =>
    by_cases h : cacheHas s.cache k <;> simp [swStep, writesOf, h]

theorem swRun_writeQueue :
    ∀ (evs : List SWEvent) (s : SWState),
      (swRun s evs).writeQueue = s.writeQueue ++ evs.flatMap writesOf
  | [], s => by simp [swRun]
  | e :: rest, s => by
    rw [swRun, swRun_writeQueue rest, swStep_writeQueue]
    simp

theorem find?_cacheSet :
    ∀ (cache : List (String × Option String)) (k : String) (v : Option String),
      (cacheSet cache k v).find? (fun p => p.1 = k) = some (k, v) := by
  intro cache k v
  unfold cacheSet
  by_cases h : cacheHas cache k
  · rw [if_pos h]
    induction cache with
    | nil => simp [cacheHas] at h
    | cons p rest ih =>
      by_cases hp : p.1 = k
      · simp only [List.map_cons, if_pos hp]
        exact List.find?_cons_of_pos _ (by simp)
      · simp only [List.map_cons, if_neg hp]
        rw [List.find?_cons_of_neg _ (by simpa using hp)]
        apply ih
        unfold cacheHas at h ⊢
        simpa [List.any_cons, hp] using h
  · rw [if_neg h]
    induction cache with
    | nil => exact List.find?_cons_of_pos _ (by simp)
    | cons p rest ih =>
      unfold cacheHas at h
      simp only [List.any_cons, Bool.or_eq_true, decide_eq_true_eq,
        not_or] at h
      simp only [List.cons_append]
      rw [List.find?_cons_of_neg _ (by simpa using h.1)]
      exact ih (by unfold cacheHas; simpa using h.2)

theorem cacheGet_cacheSet (cache : List (String × Option String))
    (k : String) (v : Option String) :
    cacheGet (cacheSet cache k v) k = some v := by
  unfold cacheGet
  rw [find?_cacheSet]
  rfl

theorem cacheHas_of_cacheGet {cache : List (String × Option String)}
    {k : String} {w : Option String}
    (hc : cacheGet cache k = some w) : cacheHas cache k = true := by
  unfold cacheGet at hc
  rcases hf : cache.find? (fun p => p.1 = k) with _ | p
  · rw [hf] at hc; cases hc
  · unfold cacheHas
    have hpred := List.find?_some hf
    exact List.any_eq_true.mpr ⟨p, List.mem_of_find?_eq_some hf, hpred⟩

/-- Claim C10.  A resolving load never overwrites a cache entry: if the
key is present in the cache (for instance because `set` ran after the
load started), the state is unchanged and the stale store value is
discarded — in particular a `set` followed by the load resolution
leaves exactly the state the `set` produced; and every event appends
exactly its own writes to the promise chain, so across any event
sequence the backing store receives the `set`/`delete` writes strictly
in issue order. -/
theorem claim10_store_wrapper (s : SWState) (k : String)
    (v : Option String) (w : Option String)
    (hcached : cacheGet s.cache k = some w) :
    (swStep s (.loadResolve k v) = s) ∧
    (∀ (s0 : SWState) (v0 : String) (vStale : Option String),
      swStep (swStep s0 (.setEv k v0)) (.loadResolve k vStale) =
        swStep s0 (.setEv k v0)) ∧
    (∀ e, (swStep s e).writeQueue = s.writeQueue ++ writesOf e) ∧
    (∀ evs, (swRun s evs).writeQueue =
      s.writeQueue ++ evs.flatMap writesOf) := by
  refine ⟨?_, ?_, swStep_writeQueue s, fun evs => swRun_writeQueue evs s⟩
  · show (if cacheHas s.cache k then s else _) = s
    rw [if_pos (cacheHas_of_cacheGet hcached)]
  · intro s0 v0 vStale
    show (if cacheHas (swStep s0 (.setEv k v0)).cache k then _ else _) = _
    rw [if_pos]
    have hget : cacheGet (cacheSet s0.cache k (some v0)) k = some (some v0) :=
      cacheGet_cacheSet s0.cache k (some v0)
    exact cacheHas_of_cacheGet hget

/-- Witness for C10: with key k cached as a1 by a `set`, the late
resolution of a load that read the stale store value a0 changes
nothing, and the queued writes of a set/delete sequence appear in issue
order. -/
theorem claim10_store_wrapper_witness :
    swStep ⟨[("k", some "a1")], [.put "k" "a1"]⟩
        (.loadResolve "k" (some "a0")) =
      ⟨[("k", some "a1")], [.put "k" "a1"]⟩ ∧
    (swRun ⟨[("k", some "a1")], [.put "k" "a1"]⟩
        [.setEv "k" "a2", .deleteEv "k"]).writeQueue =
      [.put "k" "a1", .put "k" "a2", .del "k"] := by
  have h := claim10_store_wrapper ⟨[("k", some "a1")], [.put "k" "a1"]⟩
    "k" (some "a0") (some "a1") (by decide)
  refine ⟨h.1, ?_⟩
  rw [h.2.2.2 [.setEv "k" "a2", .deleteEv "k"]]
  rfl

end StoreWrapper
